import Mathlib

/-!
Shallow embedding of the concurrent market snapshot store of the
`stock_tracker` repository (`src/main.rs`, with the non-optimized variant
`src/main_non_ottimizzata.rs` embedded where a claim compares the two).

Modelling choices:
* `f32` prices and percentages are modelled as `ℚ`; every division in the
  embedded code is guarded by a strict positivity test in the source, so no
  float-special value arises on the embedded paths.
* The `f32::INFINITY` / `f32::NEG_INFINITY` sentinels used for the derived
  extrema are modelled as `none : Option ℚ`; `foldMin`/`foldMax` mirror
  `iter().cloned().fold(f32::INFINITY, f32::min)` (resp. `NEG_INFINITY`,
  `f32::max`), which yield the sentinel exactly on the empty sequence.
* `DateTime<Utc>` timestamps are opaque to the store logic; they are
  modelled as `ℤ`.
* The `HashMap<String, StockData>` guarded by the mutex is modelled as a
  function `String → Option StockData`; each worker-loop body that mutates
  one symbol's entry under the lock becomes a pure state-transformer on
  `StockData`, lifted pointwise to the map.
-/

namespace StockTracker

/-- `StockData` of `src/main.rs` (the optimized variant, with precomputed
extrema).  `current_min`/`h24_min` model `f32` values initialized to
`f32::INFINITY` (`none`); `current_max`/`h24_max` model values initialized
to `f32::NEG_INFINITY` (`none`). -/
structure StockData where
  symbol : String
  prices : List ℚ
  timestamps : List ℤ
  prices_24h_ago : List ℚ
  timestamps_24h_ago : List ℤ
  current_price : ℚ
  change_percent : ℚ
  change_24h_percent : ℚ
  current_min : Option ℚ
  current_max : Option ℚ
  h24_min : Option ℚ
  h24_max : Option ℚ
  deriving Repr, DecidableEq

/-- One step of `f32::min` with a possibly-sentinel accumulator:
`f32::min(+INFINITY, p) = p`. -/
def minStep (acc : Option ℚ) (p : ℚ) : Option ℚ :=
  match acc with
  | none => some p
  | some a => some (min a p)

/-- One step of `f32::max` with a possibly-sentinel accumulator:
`f32::max(-INFINITY, p) = p`. -/
def maxStep (acc : Option ℚ) (p : ℚ) : Option ℚ :=
  match acc with
  | none => some p
  | some a => some (max a p)

/-- `prices.iter().cloned().fold(f32::INFINITY, f32::min)`: the sentinel
`f32::INFINITY` is `none`; folding a finite price into the sentinel gives
that price. -/
def foldMin (l : List ℚ) : Option ℚ :=
  l.foldl minStep none

/-- `prices.iter().cloned().fold(f32::NEG_INFINITY, f32::max)`: the sentinel
`f32::NEG_INFINITY` is `none`. -/
def foldMax (l : List ℚ) : Option ℚ :=
  l.foldl maxStep none

/-- Body of the per-symbol update in `start_update_worker` (`src/main.rs`
lines 743–758), the store's `applyQuote` on one `StockData`:
push `(price, now)`, evict the oldest pair if the length exceeds 60, set
`current_price`/`change_percent`, and recompute `current_min`/`current_max`
by folding over the (now-truncated) `prices` when it is non-empty. -/
def applyQuoteState (s : StockData) (price change : ℚ) (now : ℤ) : StockData :=
  let prices1 := s.prices ++ [price]
  let timestamps1 := s.timestamps ++ [now]
  let prices2 := if prices1.length > 60 then prices1.drop 1 else prices1
  let timestamps2 := if prices1.length > 60 then timestamps1.drop 1 else timestamps1
  { s with
    prices := prices2
    timestamps := timestamps2
    current_price := price
    change_percent := change
    current_min := if prices2.isEmpty then s.current_min else foldMin prices2
    current_max := if prices2.isEmpty then s.current_max else foldMax prices2 }

/-- Body of the per-symbol update in `start_24h_update_worker`
(`src/main.rs` lines 778–793), the store's `applyHistory` on one
`StockData`: replace `prices_24h_ago`/`timestamps_24h_ago` wholesale, then,
only if the new series is non-empty, recompute `h24_min`/`h24_max`, and,
only if additionally `current_price > 0` and the series' first price is
`> 0`, recompute `change_24h_percent`. -/
def applyHistoryState (s : StockData) (prices : List ℚ) (timestamps : List ℤ) : StockData :=
  let s1 := { s with prices_24h_ago := prices, timestamps_24h_ago := timestamps }
  if prices.isEmpty then s1
  else
    let s2 := { s1 with h24_min := foldMin prices, h24_max := foldMax prices }
    if s2.current_price > 0 then
      match prices.head? with
      | none => s2
      | some p24 =>
        if p24 > 0 then
          { s2 with change_24h_percent := ((s2.current_price - p24) / p24) * 100 }
        else s2
    else s2

/-- The empty `StockData` inserted for each tracked symbol at startup
(`src/main.rs` lines 872–888): empty sequences, zero prices/percentages,
sentinel extrema. -/
def initState (sym : String) : StockData :=
  { symbol := sym
    prices := []
    timestamps := []
    prices_24h_ago := []
    timestamps_24h_ago := []
    current_price := 0
    change_percent := 0
    change_24h_percent := 0
    current_min := none
    current_max := none
    h24_min := none
    h24_max := none }

/-- The symbol-keyed snapshot store: `HashMap<String, StockData>`. -/
def Store := String → Option StockData

/-- `applyQuote(symbol, price, changePercent, observedAt)` on the store:
`if let Some(s) = lock.get_mut(symbol)` — the entry is updated when the
symbol is tracked, and nothing happens otherwise. -/
def applyQuote (m : Store) (sym : String) (price change : ℚ) (now : ℤ) : Store :=
  fun k => if k = sym then (m sym).map (fun s => applyQuoteState s price change now) else m k

/-- `applyHistory(symbol, series)` on the store, with the same untracked
no-op behavior. -/
def applyHistory (m : Store) (sym : String) (prices : List ℚ) (timestamps : List ℤ) : Store :=
  fun k =>
    if k = sym then (m sym).map (fun s => applyHistoryState s prices timestamps) else m k

/-- The startup population of the map — `initialize(symbols)` in the spec: one empty `StockData` per tracked symbol
(`src/main.rs` lines 869–890). -/
def initStore (symbols : List String) : Store :=
  fun k => if k ∈ symbols then some (initState k) else none

/-- A quote as applied by the fast-cadence worker: `(price, changePercent,
observedAt)`. -/
def Quote := ℚ × ℚ × ℤ

def Quote.price (q : Quote) : ℚ := q.1

def Quote.change (q : Quote) : ℚ := q.2.1

def Quote.time (q : Quote) : ℤ := q.2.2

/-- Applying a sequence of quotes to one symbol's state, oldest first. -/
def applyQuotes (s : StockData) (qs : List Quote) : StockData :=
  qs.foldl (fun s q => applyQuoteState s q.price q.change q.time) s

/-- One store mutation: either a quote-worker update or a history-worker
update for one symbol. -/
inductive Op where
  | quote (sym : String) (price change : ℚ) (now : ℤ)
  | history (sym : String) (prices : List ℚ) (timestamps : List ℤ)

/-- Apply one mutation to the store. -/
def applyOp (m : Store) : Op → Store
  | .quote sym price change now => applyQuote m sym price change now
  | .history sym prices timestamps => applyHistory m sym prices timestamps

/-- Apply a sequence of store mutations, oldest first. -/
def applyOps (m : Store) (ops : List Op) : Store :=
  ops.foldl applyOp m

/-- One pass of the fast-cadence scheduler loop (`start_update_worker`,
`src/main.rs` lines 739–762): symbols are visited in enumeration order; a
symbol whose fetch fails (`fetch_stock_data` returns `Err`) is skipped and
the loop moves on to the next symbol.  The fetch outcomes of the pass are
the function `fetched : String → Option (ℚ × ℚ)` (`none` = failed fetch). -/
def runQuotePass (fetched : String → Option (ℚ × ℚ)) (now : ℤ)
    (symbols : List String) (m : Store) : Store :=
  symbols.foldl
    (fun acc sym =>
      match fetched sym with
      | none => acc
      | some (price, change) => applyQuote acc sym price change now)
    m

/-- `StockData` of `src/main_non_ottimizzata.rs`: same fields except that no
extrema are precomputed — the reader folds over `prices` each frame. -/
structure StockDataN where
  symbol : String
  prices : List ℚ
  timestamps : List ℤ
  prices_24h_ago : List ℚ
  timestamps_24h_ago : List ℤ
  current_price : ℚ
  change_percent : ℚ
  change_24h_percent : ℚ
  deriving Repr, DecidableEq

/-- Body of the per-symbol update in `start_update_worker` of
`src/main_non_ottimizzata.rs` (lines 856–864): push, set
`current_price`/`change_percent`, then truncate when over the bound. -/
def applyQuoteStateN (s : StockDataN) (price change : ℚ) (now : ℤ) : StockDataN :=
  let s1 := { s with
    prices := s.prices ++ [price]
    timestamps := s.timestamps ++ [now]
    current_price := price
    change_percent := change }
  if s1.prices.length > 60 then
    { s1 with prices := s1.prices.drop 1, timestamps := s1.timestamps.drop 1 }
  else s1

/-- Applying a sequence of quotes in the non-optimized variant. -/
def applyQuotesN (s : StockDataN) (qs : List Quote) : StockDataN :=
  qs.foldl (fun s q => applyQuoteStateN s q.price q.change q.time) s

/-- The non-optimized reader's extrema, recomputed at draw time
(`draw_mini_chart`, `src/main_non_ottimizzata.rs` lines 597–603):
`stock.prices.iter().cloned().fold(f32::INFINITY, f32::min)` and the
matching max fold. -/
def readMinN (s : StockDataN) : Option ℚ := foldMin s.prices

def readMaxN (s : StockDataN) : Option ℚ := foldMax s.prices

/-- The empty `StockDataN` inserted per symbol at startup of the
non-optimized variant (`src/main_non_ottimizzata.rs` lines 1019–1028). -/
def initStateN (sym : String) : StockDataN :=
  { symbol := sym
    prices := []
    timestamps := []
    prices_24h_ago := []
    timestamps_24h_ago := []
    current_price := 0
    change_percent := 0
    change_24h_percent := 0 }

/-! ### Helper lemmas -/

/-- `applyQuoteState` never touches the history-side fields nor `symbol`. -/
lemma applyQuoteState_untouched (s : StockData) (p c : ℚ) (t : ℤ) :
    (applyQuoteState s p c t).symbol = s.symbol ∧
    (applyQuoteState s p c t).prices_24h_ago = s.prices_24h_ago ∧
    (applyQuoteState s p c t).timestamps_24h_ago = s.timestamps_24h_ago ∧
    (applyQuoteState s p c t).change_24h_percent = s.change_24h_percent ∧
    (applyQuoteState s p c t).h24_min = s.h24_min ∧
    (applyQuoteState s p c t).h24_max = s.h24_max :=
  ⟨rfl, rfl, rfl, rfl, rfl, rfl⟩

/-- `applyHistoryState` never touches the quote-side fields nor `symbol`,
in any of its branches. -/
lemma applyHistoryState_untouched (s : StockData) (ps : List ℚ) (ts : List ℤ) :
    (applyHistoryState s ps ts).symbol = s.symbol ∧
    (applyHistoryState s ps ts).prices = s.prices ∧
    (applyHistoryState s ps ts).timestamps = s.timestamps ∧
    (applyHistoryState s ps ts).current_price = s.current_price ∧
    (applyHistoryState s ps ts).change_percent = s.change_percent ∧
    (applyHistoryState s ps ts).current_min = s.current_min ∧
    (applyHistoryState s ps ts).current_max = s.current_max := by
  unfold applyHistoryState
  dsimp only
  repeat' split
  all_goals exact ⟨rfl, rfl, rfl, rfl, rfl, rfl, rfl⟩

/-- The `prices` field after one quote update, in closed form. -/
lemma applyQuoteState_prices (s : StockData) (p c : ℚ) (t : ℤ) :
    (applyQuoteState s p c t).prices =
      if (s.prices ++ [p]).length > 60 then (s.prices ++ [p]).drop 1 else s.prices ++ [p] :=
  rfl

/-- The `timestamps` field after one quote update, in closed form (the
truncation is keyed on the length of the pushed `prices`, as in the
source). -/
lemma applyQuoteState_timestamps (s : StockData) (p c : ℚ) (t : ℤ) :
    (applyQuoteState s p c t).timestamps =
      if (s.prices ++ [p]).length > 60 then (s.timestamps ++ [t]).drop 1
      else s.timestamps ++ [t] :=
  rfl

/-- After a quote update the `prices` sequence is never empty. -/
lemma applyQuoteState_prices_ne_nil (s : StockData) (p c : ℚ) (t : ℤ) :
    (applyQuoteState s p c t).prices ≠ [] := by
  rw [applyQuoteState_prices]
  split
  · rename_i hcond
    intro hnil
    have hlen := congrArg List.length hnil
    simp only [List.length_drop, List.length_append, List.length_nil,
      List.length_cons] at hlen hcond
    omega
  · simp

/-- After any quote update, the precomputed extrema are exactly the folds
over the stored `prices`. -/
lemma applyQuoteState_extrema (s : StockData) (p c : ℚ) (t : ℤ) :
    (applyQuoteState s p c t).current_min = foldMin (applyQuoteState s p c t).prices ∧
    (applyQuoteState s p c t).current_max = foldMax (applyQuoteState s p c t).prices := by
  have hne := applyQuoteState_prices_ne_nil s p c t
  have hemp : (applyQuoteState s p c t).prices.isEmpty = false := by
    simpa [List.isEmpty_iff] using hne
  constructor
  · show (if (applyQuoteState s p c t).prices.isEmpty then s.current_min
        else foldMin (applyQuoteState s p c t).prices) = _
    rw [hemp]
    simp
  · show (if (applyQuoteState s p c t).prices.isEmpty then s.current_max
        else foldMax (applyQuoteState s p c t).prices) = _
    rw [hemp]
    simp

/-! ### Claim theorems -/

/-- Claim C10: the two update families are frame-disjoint — `applyQuote`
leaves `prices_24h_ago`, `timestamps_24h_ago`, `h24_min`, `h24_max` and
`change_24h_percent` (and `symbol`) unchanged, and `applyHistory` leaves
`symbol`, `prices`, `timestamps`, `current_price`, `change_percent`,
`current_min` and `current_max` unchanged. -/
theorem frame_disjointness (s : StockData) (p c : ℚ) (t : ℤ)
    (ps : List ℚ) (ts : List ℤ) :
    ((applyQuoteState s p c t).symbol = s.symbol ∧
     (applyQuoteState s p c t).prices_24h_ago = s.prices_24h_ago ∧
     (applyQuoteState s p c t).timestamps_24h_ago = s.timestamps_24h_ago ∧
     (applyQuoteState s p c t).h24_min = s.h24_min ∧
     (applyQuoteState s p c t).h24_max = s.h24_max ∧
     (applyQuoteState s p c t).change_24h_percent = s.change_24h_percent) ∧
    ((applyHistoryState s ps ts).symbol = s.symbol ∧
     (applyHistoryState s ps ts).prices = s.prices ∧
     (applyHistoryState s ps ts).timestamps = s.timestamps ∧
     (applyHistoryState s ps ts).current_price = s.current_price ∧
     (applyHistoryState s ps ts).change_percent = s.change_percent ∧
     (applyHistoryState s ps ts).current_min = s.current_min ∧
     (applyHistoryState s ps ts).current_max = s.current_max) :=
  ⟨⟨rfl, rfl, rfl, rfl, rfl, rfl⟩, applyHistoryState_untouched s ps ts⟩

/-- Claim C1, counterexample: `applyQuote` does NOT recompute
`change_24h_percent` even when `historyWindow` is non-empty.  Concretely:
bootstrap a symbol with price 100, apply a history series `[100]` (so
`change_24h_percent` becomes 0 and the window is non-empty), then apply a
quote at price 200.  The claim demands `change_24h_percent =
((200 − 100) / 100) · 100 = 100` afterwards, but the code leaves it at 0. -/
theorem applyQuote_change24h_stale_cex :
    (applyHistoryState (applyQuoteState (initState "AAPL") 100 1 0) [100] [0]).prices_24h_ago
        = [100] ∧
    (applyQuoteState
        (applyHistoryState (applyQuoteState (initState "AAPL") 100 1 0) [100] [0])
        200 1 1).current_price = 200 ∧
    (applyQuoteState
        (applyHistoryState (applyQuoteState (initState "AAPL") 100 1 0) [100] [0])
        200 1 1).change_24h_percent ≠ ((200 - 100) / 100) * 100 := by
  refine ⟨?_, ?_, ?_⟩ <;>
    norm_num [applyQuoteState, applyHistoryState, initState, foldMin, foldMax]

/-- Claim C1, amended: an `applyQuote` (quote-loop) update never touches
`change_24h_percent` — the field is recomputed only by the history-loop's
`applyHistory`, using the `current_price` current at that time.  So after
`applyQuote` the field still reflects the price at the last history
refresh, not the new `current_price`. -/
theorem applyQuote_preserves_change24h (s : StockData) (p c : ℚ) (t : ℤ) :
    (applyQuoteState s p c t).change_24h_percent = s.change_24h_percent := rfl

/-- Claim C8: `applyQuote` and `applyHistory` on a symbol outside the
tracked universe are no-ops — the entire store is unchanged (and the
embedded operations are total, so no failure is raised). -/
theorem untracked_apply_noop (m : Store) (sym : String) (p c : ℚ) (t : ℤ)
    (ps : List ℚ) (ts : List ℤ) (h : m sym = none) :
    applyQuote m sym p c t = m ∧ applyHistory m sym ps ts = m := by
  constructor <;> funext k
  · show (if k = sym then (m sym).map _ else m k) = m k
    by_cases hk : k = sym
    · rw [if_pos hk, hk, h]
      rfl
    · rw [if_neg hk]
  · show (if k = sym then (m sym).map _ else m k) = m k
    by_cases hk : k = sym
    · rw [if_pos hk, hk, h]
      rfl
    · rw [if_neg hk]

/-- Witness for C8: with only `AAPL` tracked, applying a quote and a
history series for the untracked `MSFT` leaves the store identical. -/
theorem untracked_apply_noop_witness :
    applyQuote (initStore ["AAPL"]) "MSFT" 1 2 3 = initStore ["AAPL"] ∧
    applyHistory (initStore ["AAPL"]) "MSFT" [4] [5] = initStore ["AAPL"] :=
  untracked_apply_noop (initStore ["AAPL"]) "MSFT" 1 2 3 [4] [5] (by decide)

/-- Claim C2: `applyHistory` leaves `change_24h_percent` at its previous
value whenever the supplied series is empty, or its first price is ≤ 0, or
`current_price` is not yet positive; in all other cases it sets it to
`((current_price − series[0]) / series[0]) · 100`. -/
theorem applyHistory_change24h_spec (s : StockData) (ps : List ℚ) (ts : List ℤ) :
    ((ps = [] ∨ s.current_price ≤ 0 ∨ (∃ p24 rest, ps = p24 :: rest ∧ p24 ≤ 0)) →
      (applyHistoryState s ps ts).change_24h_percent = s.change_24h_percent) ∧
    (∀ p24 rest, ps = p24 :: rest → 0 < p24 → 0 < s.current_price →
      (applyHistoryState s ps ts).change_24h_percent =
        ((s.current_price - p24) / p24) * 100) := by
  constructor
  · rintro (rfl | hcp | ⟨p24, rest, rfl, hp24⟩)
    · rfl
    · rcases ps with _ | ⟨p, rest⟩
      · rfl
      · simp [applyHistoryState, not_lt.mpr hcp]
    · simp only [applyHistoryState, List.isEmpty_cons, Bool.false_eq_true, if_false,
        List.head?_cons, not_lt.mpr hp24]
      split <;> simp
  · rintro p24 rest rfl hp24 hcp
    simp [applyHistoryState, hp24, hcp]

/-- Witness for C2: after a bootstrap quote at price 100, an empty history
refresh leaves `change_24h_percent` untouched, and a history refresh whose
series starts at 50 sets it to `((100 − 50) / 50) · 100`. -/
theorem applyHistory_change24h_spec_witness :
    (applyHistoryState (applyQuoteState (initState "AAPL") 100 1 0) [] []).change_24h_percent
        = (applyQuoteState (initState "AAPL") 100 1 0).change_24h_percent ∧
    (applyHistoryState (applyQuoteState (initState "AAPL") 100 1 0) [50] []).change_24h_percent
        = (((applyQuoteState (initState "AAPL") 100 1 0).current_price - 50) / 50) * 100 :=
  ⟨(applyHistory_change24h_spec _ [] []).1 (Or.inl rfl),
   (applyHistory_change24h_spec _ [50] []).2 50 [] rfl (by norm_num)
     (by norm_num [applyQuoteState, initState])⟩

/-- Claim C3, counterexample: `applyHistory` with an empty series does
replace `historyWindow` wholesale, but it does NOT reset
`h24_min`/`h24_max` to the sentinels — they keep their previous values.
Concretely: after `applyHistory(s, [5])` the minimum is 5; a subsequent
`applyHistory(s, [])` empties the window yet leaves `h24_min = 5`, not the
`+∞` sentinel the claim demands. -/
theorem applyHistory_empty_extrema_cex :
    (applyHistoryState (applyHistoryState (initState "AAPL") [5] [0]) [] []).prices_24h_ago
        = [] ∧
    (applyHistoryState (applyHistoryState (initState "AAPL") [5] [0]) [] []).h24_min
        ≠ none := by
  constructor
  · rfl
  · norm_num [applyHistoryState, initState, foldMin]
    exact fun h => Option.noConfusion h

/-- Claim C3, amended: `applyHistory(symbol, series)` always replaces
`historyWindow` wholesale with `series` (no merge), and recomputes
`historyMin`/`historyMax` as the fold-extrema of `series` when `series` is
non-empty; when `series` is empty the extrema are left at their previous
values (they are the sentinels only if they already were). -/
theorem applyHistory_replace_extrema (s : StockData) (ps : List ℚ) (ts : List ℤ) :
    (applyHistoryState s ps ts).prices_24h_ago = ps ∧
    (applyHistoryState s ps ts).timestamps_24h_ago = ts ∧
    (ps ≠ [] →
      (applyHistoryState s ps ts).h24_min = foldMin ps ∧
      (applyHistoryState s ps ts).h24_max = foldMax ps) ∧
    (ps = [] →
      (applyHistoryState s ps ts).h24_min = s.h24_min ∧
      (applyHistoryState s ps ts).h24_max = s.h24_max) := by
  rcases ps with _ | ⟨p, rest⟩
  · exact ⟨rfl, rfl, fun h => absurd rfl h, fun _ => ⟨rfl, rfl⟩⟩
  · unfold applyHistoryState
    dsimp only
    simp only [List.isEmpty_cons, Bool.false_eq_true, if_false, List.head?_cons]
    repeat' split
    all_goals
      exact ⟨rfl, rfl, fun _ => ⟨rfl, rfl⟩, fun h => absurd h (List.cons_ne_nil p rest)⟩

/-- Witness for C3 (amended): a refresh with series `[5]` sets the extrema
to the folds over `[5]`; the following empty refresh keeps them. -/
theorem applyHistory_replace_extrema_witness :
    ((applyHistoryState (initState "AAPL") [5] [0]).h24_min = foldMin [5] ∧
     (applyHistoryState (initState "AAPL") [5] [0]).h24_max = foldMax [5]) ∧
    (applyHistoryState (applyHistoryState (initState "AAPL") [5] [0]) [] []).h24_min
        = (applyHistoryState (initState "AAPL") [5] [0]).h24_min :=
  ⟨(applyHistory_replace_extrema (initState "AAPL") [5] [0]).2.2.1 (List.cons_ne_nil 5 []),
   ((applyHistory_replace_extrema (applyHistoryState (initState "AAPL") [5] [0]) [] []).2.2.2
      rfl).1⟩

/-- Folding `minStep` from a finite accumulator yields the least of the
accumulator and the list elements. -/
lemma foldl_minStep_some (l : List ℚ) :
    ∀ a : ℚ, ∃ m, l.foldl minStep (some a) = some m ∧ m ≤ a ∧ (m = a ∨ m ∈ l) ∧
      ∀ x ∈ l, m ≤ x := by
  induction l with
  | nil => exact fun a => ⟨a, rfl, le_refl a, Or.inl rfl, by simp⟩
  | cons p l ih =>
    intro a
    obtain ⟨m, hfold, hle, hmem, hbound⟩ := ih (min a p)
    refine ⟨m, ?_, hle.trans (min_le_left a p), ?_, ?_⟩
    · simpa [minStep] using hfold
    · rcases hmem with rfl | hm
      · rcases min_choice a p with h | h
        · exact Or.inl h
        · exact Or.inr (by rw [h]; exact List.mem_cons_self p l)
      · exact Or.inr (List.mem_cons_of_mem p hm)
    · intro x hx
      rcases List.mem_cons.mp hx with rfl | hx
      · exact hle.trans (min_le_right a x)
      · exact hbound x hx

/-- Folding `maxStep` from a finite accumulator yields the greatest of the
accumulator and the list elements. -/
lemma foldl_maxStep_some (l : List ℚ) :
    ∀ a : ℚ, ∃ m, l.foldl maxStep (some a) = some m ∧ a ≤ m ∧ (m = a ∨ m ∈ l) ∧
      ∀ x ∈ l, x ≤ m := by
  induction l with
  | nil => exact fun a => ⟨a, rfl, le_refl a, Or.inl rfl, by simp⟩
  | cons p l ih =>
    intro a
    obtain ⟨m, hfold, hle, hmem, hbound⟩ := ih (max a p)
    refine ⟨m, ?_, (le_max_left a p).trans hle, ?_, ?_⟩
    · simpa [maxStep] using hfold
    · rcases hmem with rfl | hm
      · rcases max_choice a p with h | h
        · exact Or.inl h
        · exact Or.inr (by rw [h]; exact List.mem_cons_self p l)
      · exact Or.inr (List.mem_cons_of_mem p hm)
    · intro x hx
      rcases List.mem_cons.mp hx with rfl | hx
      · exact (le_max_right a x).trans hle
      · exact hbound x hx

/-- The code's min-fold computes a true minimum: a member that bounds every
element from below. -/
lemma foldMin_is_min (l : List ℚ) (m : ℚ) (h : foldMin l = some m) :
    m ∈ l ∧ ∀ x ∈ l, m ≤ x := by
  cases l with
  | nil => cases h
  | cons p l =>
    obtain ⟨m', hfold, hle, hmem, hbound⟩ := foldl_minStep_some l p
    have hm : m' = m := by
      have : foldMin (p :: l) = l.foldl minStep (some p) := by simp [foldMin, minStep]
      rw [this, hfold] at h
      exact Option.some_injective _ h
    subst hm
    constructor
    · rcases hmem with rfl | hm
      · exact List.mem_cons_self _ _
      · exact List.mem_cons_of_mem p hm
    · intro x hx
      rcases List.mem_cons.mp hx with rfl | hx
      · exact hle
      · exact hbound x hx

/-- The code's max-fold computes a true maximum. -/
lemma foldMax_is_max (l : List ℚ) (m : ℚ) (h : foldMax l = some m) :
    m ∈ l ∧ ∀ x ∈ l, x ≤ m := by
  cases l with
  | nil => cases h
  | cons p l =>
    obtain ⟨m', hfold, hle, hmem, hbound⟩ := foldl_maxStep_some l p
    have hm : m' = m := by
      have : foldMax (p :: l) = l.foldl maxStep (some p) := by simp [foldMax, maxStep]
      rw [this, hfold] at h
      exact Option.some_injective _ h
    subst hm
    constructor
    · rcases hmem with rfl | hm
      · exact List.mem_cons_self _ _
      · exact List.mem_cons_of_mem p hm
    · intro x hx
      rcases List.mem_cons.mp hx with rfl | hx
      · exact hle
      · exact hbound x hx

/-- After any sequence of quote updates starting from the startup state,
the precomputed extrema are exactly the folds over the stored `prices`
(shared backbone for the extrema claims). -/
lemma applyQuotes_extrema (sym : String) (qs : List Quote) :
    (applyQuotes (initState sym) qs).current_min
        = foldMin (applyQuotes (initState sym) qs).prices ∧
    (applyQuotes (initState sym) qs).current_max
        = foldMax (applyQuotes (initState sym) qs).prices := by
  induction qs using List.reverseRecOn with
  | nil => exact ⟨rfl, rfl⟩
  | append_singleton qs q _ =>
    have hstep : applyQuotes (initState sym) (qs ++ [q])
        = applyQuoteState (applyQuotes (initState sym) qs) q.price q.change q.time := by
      simp [applyQuotes, List.foldl_append]
    rw [hstep]
    exact applyQuoteState_extrema _ _ _ _

/-- Claim C5: after any sequence of `applyQuote` calls for a tracked
symbol, `recentMin` equals the minimum of `recentPrices` and `recentMax`
its maximum — they equal the code's folds over `prices`, those folds are
genuine extrema (a member bounding all elements), and on an empty
`recentPrices` both fields are the sentinels (`none`). -/
theorem recent_extrema_correct (sym : String) (qs : List Quote) :
    (applyQuotes (initState sym) qs).current_min
        = foldMin (applyQuotes (initState sym) qs).prices ∧
    (applyQuotes (initState sym) qs).current_max
        = foldMax (applyQuotes (initState sym) qs).prices ∧
    ((applyQuotes (initState sym) qs).prices = [] →
      (applyQuotes (initState sym) qs).current_min = none ∧
      (applyQuotes (initState sym) qs).current_max = none) ∧
    (∀ m, (applyQuotes (initState sym) qs).current_min = some m →
      m ∈ (applyQuotes (initState sym) qs).prices ∧
      ∀ x ∈ (applyQuotes (initState sym) qs).prices, m ≤ x) ∧
    (∀ M, (applyQuotes (initState sym) qs).current_max = some M →
      M ∈ (applyQuotes (initState sym) qs).prices ∧
      ∀ x ∈ (applyQuotes (initState sym) qs).prices, x ≤ M) := by
  obtain ⟨hmin, hmax⟩ := applyQuotes_extrema sym qs
  refine ⟨hmin, hmax, ?_, ?_, ?_⟩
  · intro hnil
    rw [hmin, hmax, hnil]
    exact ⟨rfl, rfl⟩
  · intro m hm
    exact foldMin_is_min _ m (hmin ▸ hm)
  · intro M hM
    exact foldMax_is_max _ M (hmax ▸ hM)

/-- Witness for C5: pushing prices 10 then 5 makes `current_min = some 5`,
and 5 is a member of `prices` bounding every element from below. -/
theorem recent_extrema_correct_witness :
    (applyQuotes (initState "AAPL") [(10, 0, 0), (5, 0, 1)]).current_min = some 5 ∧
    5 ∈ (applyQuotes (initState "AAPL") [(10, 0, 0), (5, 0, 1)]).prices ∧
    ∀ x ∈ (applyQuotes (initState "AAPL") [(10, 0, 0), (5, 0, 1)]).prices, 5 ≤ x := by
  have h5 : (applyQuotes (initState "AAPL") [(10, 0, 0), (5, 0, 1)]).current_min = some 5 := by
    norm_num [applyQuotes, applyQuoteState, initState, foldMin, minStep,
      Quote.price, Quote.change, Quote.time]
    exact List.cons_ne_nil _ _
  have h := (recent_extrema_correct "AAPL" [(10, 0, 0), (5, 0, 1)]).2.2.2.1 5 h5
  exact ⟨h5, h.1, h.2⟩

/-- The per-symbol length invariant of §3: `recentPrices` holds at most 60
samples and stays in lock-step with `recentTimestamps`. -/
def StoreInv (m : Store) : Prop :=
  ∀ k s, m k = some s → s.prices.length ≤ 60 ∧ s.prices.length = s.timestamps.length

/-- One quote update preserves the length invariant on a single state. -/
lemma applyQuoteState_lengths (s : StockData) (p c : ℚ) (t : ℤ)
    (hle : s.prices.length ≤ 60) (heq : s.prices.length = s.timestamps.length) :
    (applyQuoteState s p c t).prices.length ≤ 60 ∧
    (applyQuoteState s p c t).prices.length = (applyQuoteState s p c t).timestamps.length := by
  rw [applyQuoteState_prices, applyQuoteState_timestamps]
  by_cases h : (s.prices ++ [p]).length > 60
  · rw [if_pos h, if_pos h]
    simp only [List.length_drop, List.length_append, List.length_cons,
      List.length_nil] at h ⊢
    omega
  · rw [if_neg h, if_neg h]
    simp only [List.length_append, List.length_cons, List.length_nil] at h ⊢
    omega

/-- Every single store mutation preserves the length invariant. -/
lemma storeInv_applyOp (m : Store) (op : Op) (h : StoreInv m) : StoreInv (applyOp m op) := by
  cases op with
  | quote sym p c t =>
    intro k s hk
    by_cases hks : k = sym
    · simp only [applyOp, applyQuote, if_pos hks] at hk
      cases hms : m sym with
      | none => rw [hms] at hk; cases hk
      | some s0 =>
        rw [hms] at hk
        obtain ⟨hle, heq⟩ := h sym s0 hms
        have hs : applyQuoteState s0 p c t = s := Option.some_injective _ hk
        rw [← hs]
        exact applyQuoteState_lengths s0 p c t hle heq
    · simp only [applyOp, applyQuote, if_neg hks] at hk
      exact h k s hk
  | history sym ps ts =>
    intro k s hk
    by_cases hks : k = sym
    · simp only [applyOp, applyHistory, if_pos hks] at hk
      cases hms : m sym with
      | none => rw [hms] at hk; cases hk
      | some s0 =>
        rw [hms] at hk
        obtain ⟨hle, heq⟩ := h sym s0 hms
        have hs : applyHistoryState s0 ps ts = s := Option.some_injective _ hk
        obtain ⟨-, hpr, hts, -, -, -, -⟩ := applyHistoryState_untouched s0 ps ts
        rw [← hs, hpr, hts]
        exact ⟨hle, heq⟩
    · simp only [applyOp, applyHistory, if_neg hks] at hk
      exact h k s hk

/-- Any sequence of store mutations preserves the length invariant. -/
lemma storeInv_applyOps (ops : List Op) :
    ∀ m : Store, StoreInv m → StoreInv (applyOps m ops) := by
  induction ops with
  | nil => exact fun m h => h
  | cons op ops ih =>
    intro m h
    exact ih (applyOp m op) (storeInv_applyOp m op h)

/-- The startup store satisfies the length invariant. -/
lemma storeInv_initStore (symbols : List String) : StoreInv (initStore symbols) := by
  intro k s hk
  unfold initStore at hk
  split at hk
  · cases hk
    exact ⟨by simp [initState], by simp [initState]⟩
  · cases hk

/-- Claim C4: after any sequence of startup/`applyQuote`/`applyHistory`
operations, every tracked symbol's `recentPrices` has length at most 60 and
exactly the length of `recentTimestamps`; and when the 60-sample bound
would be exceeded by an append, `applyQuote` evicts exactly the oldest
price/timestamp pair (strict FIFO: the surviving samples keep their
order). -/
theorem length_invariant_and_fifo :
    (∀ (symbols : List String) (ops : List Op) (k : String) (s : StockData),
      applyOps (initStore symbols) ops k = some s →
      s.prices.length ≤ 60 ∧ s.prices.length = s.timestamps.length) ∧
    (∀ (s : StockData) (p c : ℚ) (t : ℤ),
      s.prices.length = 60 → s.timestamps.length = 60 →
      (applyQuoteState s p c t).prices = s.prices.tail ++ [p] ∧
      (applyQuoteState s p c t).timestamps = s.timestamps.tail ++ [t]) ∧
    (∀ (s : StockData) (p c : ℚ) (t : ℤ),
      s.prices.length < 60 →
      (applyQuoteState s p c t).prices = s.prices ++ [p] ∧
      (applyQuoteState s p c t).timestamps = s.timestamps ++ [t]) := by
  refine ⟨?_, ?_, ?_⟩
  · intro symbols ops k s hk
    exact storeInv_applyOps ops (initStore symbols) (storeInv_initStore symbols) k s hk
  · intro s p c t hlen hlent
    have hgt : (s.prices ++ [p]).length > 60 := by
      simp [List.length_append, hlen]
    rw [applyQuoteState_prices, applyQuoteState_timestamps, if_pos hgt, if_pos hgt]
    constructor
    · rw [List.drop_append_of_le_length (by omega), List.drop_one]
    · rw [List.drop_append_of_le_length (by omega), List.drop_one]
  · intro s p c t hlen
    have hng : ¬(s.prices ++ [p]).length > 60 := by
      simp only [List.length_append, List.length_cons, List.length_nil]
      omega
    rw [applyQuoteState_prices, applyQuoteState_timestamps, if_neg hng, if_neg hng]
    exact ⟨rfl, rfl⟩

/-- Witness for C4: after one quote for the tracked `AAPL` the invariant
holds concretely; a state with a full 60-sample window evicts exactly its
oldest pair on the next append; a below-bound state appends without
eviction. -/
theorem length_invariant_and_fifo_witness :
    ((applyQuoteState (initState "AAPL") 1 2 3).prices.length ≤ 60 ∧
     (applyQuoteState (initState "AAPL") 1 2 3).prices.length
        = (applyQuoteState (initState "AAPL") 1 2 3).timestamps.length) ∧
    ((applyQuoteState
        { initState "AAPL" with
          prices := List.replicate 60 1, timestamps := List.replicate 60 0 }
        7 0 9).prices = (List.replicate 60 (1 : ℚ)).tail ++ [7] ∧
     (applyQuoteState
        { initState "AAPL" with
          prices := List.replicate 60 1, timestamps := List.replicate 60 0 }
        7 0 9).timestamps = (List.replicate 60 (0 : ℤ)).tail ++ [9]) ∧
    ((applyQuoteState (initState "AAPL") 7 0 9).prices = [] ++ [7] ∧
     (applyQuoteState (initState "AAPL") 7 0 9).timestamps = [] ++ [9]) := by
  refine ⟨?_, ?_, ?_⟩
  · exact length_invariant_and_fifo.1 ["AAPL"] [Op.quote "AAPL" 1 2 3] "AAPL"
      (applyQuoteState (initState "AAPL") 1 2 3) rfl
  · exact length_invariant_and_fifo.2.1 _ 7 0 9 (by simp) (by simp)
  · exact length_invariant_and_fifo.2.2 _ 7 0 9 (by simp [initState])

/-- Closed form of the sliding window: applying a sequence of quotes keeps
exactly the last 60 of the previously-stored and newly-pushed prices, in
order. -/
lemma applyQuotes_prices_drop (qs : List Quote) :
    ∀ s : StockData, s.prices.length ≤ 60 →
      (applyQuotes s qs).prices
        = (s.prices ++ qs.map Quote.price).drop (s.prices.length + qs.length - 60) := by
  induction qs with
  | nil =>
    intro s h
    have h0 : s.prices.length + ([] : List Quote).length - 60 = 0 := by
      simp only [List.length_nil]
      omega
    simp only [applyQuotes, List.foldl_nil, List.map_nil, List.append_nil, h0,
      List.drop_zero]
  | cons q qs ih =>
    intro s h
    have hstep : applyQuotes s (q :: qs)
        = applyQuotes (applyQuoteState s q.price q.change q.time) qs := rfl
    rw [hstep]
    have hassoc : s.prices ++ (q :: qs).map Quote.price
        = (s.prices ++ [q.price]) ++ qs.map Quote.price := by simp
    by_cases hev : (s.prices ++ [q.price]).length > 60
    · have h60 : s.prices.length = 60 := by
        simp only [List.length_append, List.length_cons, List.length_nil] at hev
        omega
      have hs' : (applyQuoteState s q.price q.change q.time).prices
          = (s.prices ++ [q.price]).drop 1 := by
        rw [applyQuoteState_prices, if_pos hev]
      have hlen' : (applyQuoteState s q.price q.change q.time).prices.length ≤ 60 := by
        rw [hs']
        simp only [List.length_drop, List.length_append, List.length_cons, List.length_nil]
        omega
      rw [ih _ hlen', hs', hassoc]
      rw [← List.drop_append_of_le_length (by simp)]
      rw [List.drop_drop]
      congr 1
      simp only [List.length_drop, List.length_append, List.length_cons,
        List.length_nil]
      omega
    · have hs' : (applyQuoteState s q.price q.change q.time).prices
          = s.prices ++ [q.price] := by
        rw [applyQuoteState_prices, if_neg hev]
      have hlen' : (applyQuoteState s q.price q.change q.time).prices.length ≤ 60 := by
        rw [hs']
        simp only [List.length_append, List.length_cons, List.length_nil] at hev ⊢
        omega
      rw [ih _ hlen', hs', hassoc]
      congr 1
      simp only [List.length_append, List.length_cons, List.length_nil]
      omega

/-- Claim C6: starting from the empty startup state, applying 61 quotes one
at a time leaves `recentPrices` equal to the pushed prices with exactly the
oldest one dropped, in insertion order. -/
theorem sixtyone_quotes_evict_oldest (sym : String) (qs : List Quote)
    (h : qs.length = 61) :
    (applyQuotes (initState sym) qs).prices = (qs.map Quote.price).drop 1 := by
  have hfull := applyQuotes_prices_drop qs (initState sym) (by simp [initState])
  rw [hfull]
  show ([] ++ qs.map Quote.price).drop ([].length + qs.length - 60) = _
  rw [List.nil_append, List.length_nil, Nat.zero_add, h]

/-- A concrete run of 61 quotes at prices 0,…,60. -/
def qs61 : List Quote := (List.range 61).map (fun (i : ℕ) => ((i : ℚ), (0 : ℚ), (i : ℤ)))

/-- Witness for C6: the 61-quote run drops exactly the first price. -/
theorem sixtyone_quotes_evict_oldest_witness :
    qs61.length = 61 ∧
    (applyQuotes (initState "AAPL") qs61).prices = (qs61.map Quote.price).drop 1 :=
  ⟨by simp [qs61], sixtyone_quotes_evict_oldest "AAPL" qs61 (by simp [qs61])⟩

/-- Number of times a symbol occurs in the scheduler's enumeration list. -/
def countSym (k : String) : List String → ℕ
  | [] => 0
  | a :: rest => countSym k rest + (if a = k then 1 else 0)

/-- The effect one pass has on the entry of symbol `k`, per occurrence of
`k` in the list: skip on a failed fetch, quote-update on a successful
one. -/
def quoteStep (fetched : String → Option (ℚ × ℚ)) (now : ℤ) (k : String)
    (r : Option StockData) : Option StockData :=
  match fetched k with
  | none => r
  | some (price, change) => r.map (fun s => applyQuoteState s price change now)

/-- A pass touches the entry of symbol `k` exactly `countSym k symbols`
times, each time through `quoteStep`; entries of other symbols never
influence it. -/
lemma runQuotePass_apply (fetched : String → Option (ℚ × ℚ)) (now : ℤ)
    (symbols : List String) :
    ∀ m : Store, ∀ k : String,
      runQuotePass fetched now symbols m k
        = (quoteStep fetched now k)^[countSym k symbols] (m k) := by
  induction symbols with
  | nil => exact fun m k => rfl
  | cons a symbols ih =>
    intro m k
    cases hfa : fetched a with
    | none =>
      have hcons : runQuotePass fetched now (a :: symbols) m
          = runQuotePass fetched now symbols m := by
        unfold runQuotePass
        rw [List.foldl_cons, hfa]
      rw [hcons, ih]
      by_cases hak : a = k
      · subst hak
        have hfix0 : quoteStep fetched now a (m a) = m a := by
          simp [quoteStep, hfa]
        simp only [Function.iterate_fixed hfix0]
      · simp [countSym, hak]
    | some pc =>
      obtain ⟨price, change⟩ := pc
      have hcons : runQuotePass fetched now (a :: symbols) m
          = runQuotePass fetched now symbols (applyQuote m a price change now) := by
        unfold runQuotePass
        rw [List.foldl_cons, hfa]
      rw [hcons, ih]
      by_cases hak : a = k
      · subst hak
        have hmk : (applyQuote m a price change now) a
            = quoteStep fetched now a (m a) := by
          simp [applyQuote, quoteStep, hfa]
        rw [hmk, ← Function.iterate_succ_apply]
        simp [countSym]
      · have hmk : (applyQuote m a price change now) k = m k := by
          simp [applyQuote, Ne.symm hak]
        rw [hmk]
        simp [countSym, hak]

/-- Claim C7: within one scheduler pass, a fetch failure for a symbol
leaves that symbol's entire state unchanged; the outcome for a symbol
depends only on its own fetch result (another symbol's failure has no
effect on it); and for a symbol listed once whose fetch succeeds, the pass
applies exactly one quote update.  The pass itself is a total function —
no error propagates out of the loop. -/
theorem quote_pass_isolation (fetched fetched2 : String → Option (ℚ × ℚ)) (now : ℤ)
    (symbols : List String) (m : Store) (k : String) :
    (fetched k = none → runQuotePass fetched now symbols m k = m k) ∧
    (fetched k = fetched2 k →
      runQuotePass fetched now symbols m k = runQuotePass fetched2 now symbols m k) ∧
    (∀ price change s, fetched k = some (price, change) → countSym k symbols = 1 →
      m k = some s →
      runQuotePass fetched now symbols m k = some (applyQuoteState s price change now)) := by
  refine ⟨?_, ?_, ?_⟩
  · intro hk
    rw [runQuotePass_apply]
    exact Function.iterate_fixed (by simp [quoteStep, hk]) _
  · intro hk
    rw [runQuotePass_apply, runQuotePass_apply]
    have hstep : quoteStep fetched now k = quoteStep fetched2 now k := by
      funext r
      unfold quoteStep
      rw [hk]
    rw [hstep]
  · intro price change s hk hcount hm
    rw [runQuotePass_apply, hcount, Function.iterate_one]
    unfold quoteStep
    rw [hk, hm]
    rfl

/-- The fetch outcomes of the C7 scenario pass: `AAPL` succeeds at price
150 (+1.5%), `MSFT` fails. -/
def fetchScenario : String → Option (ℚ × ℚ) :=
  fun sym => if sym = "AAPL" then some (150, 3 / 2) else none

/-- Witness for C7: in a pass over `["AAPL", "MSFT"]` where `MSFT`'s fetch
fails and `AAPL`'s succeeds, `MSFT`'s entry is unchanged, `AAPL`'s receives
exactly one quote update, and its `recentPrices` gained one element. -/
theorem quote_pass_isolation_witness :
    runQuotePass fetchScenario 0 ["AAPL", "MSFT"] (initStore ["AAPL", "MSFT"]) "MSFT"
        = initStore ["AAPL", "MSFT"] "MSFT" ∧
    runQuotePass fetchScenario 0 ["AAPL", "MSFT"] (initStore ["AAPL", "MSFT"]) "AAPL"
        = some (applyQuoteState (initState "AAPL") 150 (3 / 2) 0) ∧
    (applyQuoteState (initState "AAPL") 150 (3 / 2) 0).prices.length
        = (initState "AAPL").prices.length + 1 := by
  refine ⟨?_, ?_, ?_⟩
  · exact (quote_pass_isolation fetchScenario fetchScenario 0 ["AAPL", "MSFT"]
      (initStore ["AAPL", "MSFT"]) "MSFT").1 rfl
  · exact (quote_pass_isolation fetchScenario fetchScenario 0 ["AAPL", "MSFT"]
      (initStore ["AAPL", "MSFT"]) "AAPL").2.2 150 (3 / 2) (initState "AAPL") rfl rfl rfl
  · simp [applyQuoteState, initState]

/-- Closed form of `prices` after one non-optimized quote update: same
push-then-truncate window as the optimized variant. -/
lemma applyQuoteStateN_prices (sN : StockDataN) (p c : ℚ) (t : ℤ) :
    (applyQuoteStateN sN p c t).prices =
      if (sN.prices ++ [p]).length > 60 then (sN.prices ++ [p]).drop 1
      else sN.prices ++ [p] := by
  unfold applyQuoteStateN
  dsimp only
  split <;> rfl

/-- Identical quote sequences produce identical `prices` windows in the
optimized and non-optimized variants. -/
lemma applyQuotes_prices_eq (qs : List Quote) :
    ∀ (s : StockData) (sN : StockDataN), s.prices = sN.prices →
      (applyQuotes s qs).prices = (applyQuotesN sN qs).prices := by
  induction qs with
  | nil => exact fun s sN h => h
  | cons q qs ih =>
    intro s sN h
    have hstep : (applyQuoteState s q.price q.change q.time).prices
        = (applyQuoteStateN sN q.price q.change q.time).prices := by
      rw [applyQuoteState_prices, applyQuoteStateN_prices, h]
    exact ih _ _ hstep

/-- Claim C9: for every quote sequence applied identically to both
variants, the optimized variant's precomputed `current_min`/`current_max`
(maintained at write time) equal the fold-extrema the non-optimized
variant's reader computes over its `prices` at draw time — the variants are
observationally equivalent on the extrema. -/
theorem opt_nonopt_extrema_equiv (sym : String) (qs : List Quote) :
    (applyQuotes (initState sym) qs).current_min
        = readMinN (applyQuotesN (initStateN sym) qs) ∧
    (applyQuotes (initState sym) qs).current_max
        = readMaxN (applyQuotesN (initStateN sym) qs) := by
  have hpr : (applyQuotes (initState sym) qs).prices
      = (applyQuotesN (initStateN sym) qs).prices :=
    applyQuotes_prices_eq qs (initState sym) (initStateN sym) rfl
  obtain ⟨hmin, hmax⟩ := applyQuotes_extrema sym qs
  constructor
  · rw [hmin, readMinN, hpr]
  · rw [hmax, readMaxN, hpr]

end StockTracker
